import Mathlib

/-!
Shallow embedding of the DocuGenius ingestion-and-generation pipeline
(`src/server/services/mcp/index.js`, `src/server/services/gitingest/index.js`,
`fileProcessorWorker.js`, `gitExecutor.js`) and proofs about the spec claims.

JavaScript strings are modelled as `List Char` (`Str`); JS string `.length`
is the list length (identical for the BMP text appearing here).  JS 32-bit
integer coercion (`| 0` / `& `) is modelled explicitly with `toInt32`.
-/

set_option maxRecDepth 8000

/-- JS strings are modelled as lists of characters. -/
abbrev Str := List Char

/-- JS `String.prototype.includes`: substring test. -/
def containsSub (needle : Str) : Str → Bool
  | [] => needle.isEmpty
  | c :: t => needle.isPrefixOf (c :: t) || containsSub needle t

/-- JS `ToInt32` coercion (the effect of `hash & hash` / `<<` in `_quickHash`). -/
def toInt32 (n : Int) : Int := (n + 2 ^ 31) % 2 ^ 32 - 2 ^ 31

/-- `MCPManager._quickHash` up to the final `toString(36)`:
`hash = ((hash << 5) - hash) + charCodeAt(i); hash = hash & hash`. -/
def quickHashInt (s : Str) : Int :=
  s.foldl (fun h c => toInt32 (toInt32 (h * 32) - h + (c.toNat : Int))) 0

/-- Digit character for base-36 printing (`0-9a-z`), as in JS `toString(36)`. -/
def digit36 (d : Nat) : Char :=
  if d < 10 then Char.ofNat (48 + d) else Char.ofNat (87 + d)

/-- Base-36 digits of a number, most significant first; `fuel` bounds the
recursion (one digit is emitted per unit of fuel). -/
def base36Go : Nat → Nat → Str → Str
  | 0, _, acc => acc
  | fuel + 1, n, acc => if n = 0 then acc else base36Go fuel (n / 36) (digit36 (n % 36) :: acc)

/-- JS `Number.prototype.toString(36)` for naturals: exact for every
`n < 36 ^ 64`, far above the 32-bit hash range it is applied to. -/
def toBase36 (n : Nat) : Str := if n = 0 then ['0'] else base36Go 64 n []

/-- `MCPManager._quickHash`: `Math.abs(hash).toString(36)`. -/
def quickHash (s : Str) : Str := toBase36 (quickHashInt s).natAbs

/-- Decimal digits of a natural, most significant first, with fuel as in
`base36Go`. -/
def decimalGo : Nat → Nat → Str → Str
  | 0, _, acc => acc
  | fuel + 1, n, acc => if n = 0 then acc else decimalGo fuel (n / 10) (digit36 (n % 10) :: acc)

/-- JS number-to-string interpolation for naturals (content lengths): exact
for every `n < 10 ^ 64`. -/
def natToStr (n : Nat) : Str := if n = 0 then ['0'] else decimalGo 64 n []

/-- JS `Array.prototype.join(sep)`. -/
def joinSep (sep : Str) : List Str → Str
  | [] => []
  | [x] => x
  | x :: y :: t => x ++ sep ++ joinSep sep (y :: t)

/-- JS `String.prototype.toLowerCase` (ASCII range, which is all that appears). -/
def toLowerStr (s : Str) : Str := s.map Char.toLower

/-- `fileProcessorWorker.normalizePath`: replace every backslash by a slash. -/
def normalizePath (s : Str) : Str := s.map fun c => if c = '\\' then '/' else c

/-- `path.join` for the clean relative paths built by the scanner. -/
def pjoin (a b : Str) : Str := if a.isEmpty then b else a ++ '/' :: b

/-- Scan for `path.extname`, walking the reversed path: collects the characters
after the last dot of the basename; a dot that starts the basename (hidden
file) or a basename without a dot gives the empty extension. -/
def extnameGo : Str → Str → Str
  | [], _ => []
  | c :: rest, acc =>
    if c = '/' then []
    else if c = '.' then (if rest.isEmpty || rest.head? == some '/' then [] else '.' :: acc)
    else extnameGo rest (c :: acc)

/-- JS `path.extname`. -/
def extnameFull (p : Str) : Str := extnameGo p.reverse []

/-! ## Chunker (`MCPManager._chunkFilesBySize`) -/

/-- A file as seen by the chunker (a filtered input file). -/
structure CFile where
  path : Str
  content : Str
deriving DecidableEq, Repr

/-- The marker appended to a truncated oversized file:
`'\n// Content truncated due to size limits'`. -/
def truncMarker : Str := "\n// Content truncated due to size limits".toList

/-- The single-oversized-file transformation:
`{...file, content: file.content.substring(0, maxTokensPerChunk) + marker}`. -/
def truncFile (maxT : Nat) (f : CFile) : CFile :=
  { f with content := f.content.take maxT ++ truncMarker }

/-- Cumulative content length of a chunk. -/
def sumLen (c : List CFile) : Nat := (c.map fun f => f.content.length).sum

/-- Loop body of `_chunkFilesBySize`: state is the remaining files, the current
chunk, the running `currentSize`, and the finished chunks. -/
def chunkGo (maxT : Nat) : List CFile → List CFile → Nat → List (List CFile) → List (List CFile)
  | [], cur, _, acc => if cur.isEmpty then acc else acc ++ [cur]
  | f :: rest, cur, curSize, acc =>
    let fileSize := f.content.length
    if maxT < fileSize then
      if cur.isEmpty then
        chunkGo maxT rest cur curSize (acc ++ [[truncFile maxT f]])
      else
        chunkGo maxT rest [] 0 (acc ++ [cur] ++ [[truncFile maxT f]])
    else if maxT < curSize + fileSize && !cur.isEmpty then
      chunkGo maxT rest [f] fileSize (acc ++ [cur])
    else
      chunkGo maxT rest (cur ++ [f]) (curSize + fileSize) acc

/-- `MCPManager._chunkFilesBySize(files, maxTokensPerChunk)`. -/
def chunkFilesBySize (files : List CFile) (maxT : Nat) : List (List CFile) :=
  chunkGo maxT files [] 0 []

theorem chunkGo_mem_acc (maxT : Nat) :
    ∀ (files cur : List CFile) (cs : Nat) (acc : List (List CFile)) (c : List CFile),
      c ∈ acc → c ∈ chunkGo maxT files cur cs acc := by
  intro files
  induction files with
  | nil =>
    intro cur cs acc c hc
    simp only [chunkGo]
    split
    · exact hc
    · exact List.mem_append_left _ hc
  | cons f rest ih =>
    intro cur cs acc c hc
    simp only [chunkGo]
    split
    · split
      · exact ih _ _ _ _ (List.mem_append_left _ hc)
      · exact ih _ _ _ _ (List.mem_append_left _ (List.mem_append_left _ hc))
    · split
      · exact ih _ _ _ _ (List.mem_append_left _ hc)
      · exact ih _ _ _ _ hc

theorem chunkGo_sound (B : Nat) :
    ∀ (files cur : List CFile) (cs : Nat) (acc : List (List CFile)),
      cs = sumLen cur → sumLen cur ≤ B →
      (∀ c ∈ acc, sumLen c ≤ B ∨ ∃ f, B < f.content.length ∧ c = [truncFile B f]) →
      ∀ c ∈ chunkGo B files cur cs acc,
        sumLen c ≤ B ∨ ∃ f, B < f.content.length ∧ c = [truncFile B f] := by
  intro files
  induction files with
  | nil =>
    intro cur cs acc _ hle hacc c hc
    simp only [chunkGo] at hc
    split at hc
    · exact hacc c hc
    · rcases List.mem_append.mp hc with h | h
      · exact hacc c h
      · simp only [List.mem_singleton] at h
        exact Or.inl (h ▸ hle)
  | cons f rest ih =>
    intro cur cs acc hcs hle hacc c hc
    simp only [chunkGo] at hc
    split at hc
    · rename_i hover
      split at hc
      · refine ih _ _ _ hcs hle ?_ c hc
        intro d hd
        rcases List.mem_append.mp hd with h | h
        · exact hacc d h
        · simp only [List.mem_singleton] at h
          exact Or.inr ⟨f, hover, h⟩
      · refine ih _ _ _ (by simp [sumLen]) (by simp [sumLen]) ?_ c hc
        intro d hd
        rcases List.mem_append.mp hd with h | h
        · rcases List.mem_append.mp h with h' | h'
          · exact hacc d h'
          · simp only [List.mem_singleton] at h'
            exact Or.inl (h' ▸ hle)
        · simp only [List.mem_singleton] at h
          exact Or.inr ⟨f, hover, h⟩
    · rename_i hover
      split at hc
      · refine ih _ _ _ (by simp [sumLen]) ?_ ?_ c hc
        · simp only [sumLen, List.map_cons, List.map_nil, List.sum_cons, List.sum_nil,
            Nat.add_zero]
          omega
        · intro d hd
          rcases List.mem_append.mp hd with h | h
          · exact hacc d h
          · simp only [List.mem_singleton] at h
            exact Or.inl (h ▸ hle)
      · rename_i hfit
        refine ih _ _ _ ?_ ?_ hacc c hc
        · simp [sumLen, hcs]
        · have hsum : sumLen (cur ++ [f]) = sumLen cur + f.content.length := by
            simp [sumLen]
          rw [hsum]
          by_cases hcur : cur = []
          · subst hcur
            simp only [sumLen, List.map_nil, List.sum_nil]
            omega
          · have hne : cur.isEmpty = false := by
              cases cur with
              | nil => exact absurd rfl hcur
              | cons a t => rfl
            have hlt : ¬ B < cs + f.content.length := by
              intro hlt
              exact hfit (by simp [hlt, hne])
            simp only [sumLen] at hcs ⊢
            omega

/-- Claim C3: every chunk produced by `_chunkFilesBySize` is either within the
budget or is a single-oversized-file chunk (one truncated file whose original
content exceeded the budget). -/
theorem chunk_size_bound (files : List CFile) (B : Nat) (c : List CFile)
    (hc : c ∈ chunkFilesBySize files B) :
    sumLen c ≤ B ∨ ∃ f, B < f.content.length ∧ c = [truncFile B f] := by
  refine chunkGo_sound B files [] 0 [] ?_ ?_ ?_ c hc
  · simp [sumLen]
  · simp [sumLen]
  · intro d hd
    simp at hd

/-- Witness for C3 at a concrete input. -/
theorem chunk_size_bound_witness :
    sumLen [⟨"a.js".toList, "xy".toList⟩] ≤ 5 ∨
      ∃ f, 5 < f.content.length ∧
        ([⟨"a.js".toList, "xy".toList⟩] : List CFile) = [truncFile 5 f] :=
  chunk_size_bound [⟨"a.js".toList, "xy".toList⟩] 5 _ (by decide)

theorem chunkGo_join (B : Nat) :
    ∀ (files cur : List CFile) (cs : Nat) (acc : List (List CFile)),
      (∀ f ∈ files, f.content.length ≤ B) →
      (chunkGo B files cur cs acc).flatten = acc.flatten ++ cur ++ files := by
  intro files
  induction files with
  | nil =>
    intro cur cs acc _
    simp only [chunkGo]
    split
    · rename_i hemp
      simp [List.isEmpty_iff.mp hemp]
    · simp
  | cons f rest ih =>
    intro cur cs acc hall
    simp only [chunkGo]
    have hf : f.content.length ≤ B := hall f (List.mem_cons_self f rest)
    have hrest : ∀ g ∈ rest, g.content.length ≤ B := fun g hg => hall g (List.mem_cons_of_mem f hg)
    split
    · rename_i hover
      exact absurd hf (Nat.not_le_of_lt hover)
    · split
      · rw [ih _ _ _ hrest]
        simp
      · rw [ih _ _ _ hrest]
        simp

/-- Claim C10: when every file fits the budget, concatenating the chunks in
order yields exactly the input file list (nothing dropped, duplicated or
reordered). -/
theorem chunk_join_eq (files : List CFile) (B : Nat)
    (h : ∀ f ∈ files, f.content.length ≤ B) :
    (chunkFilesBySize files B).flatten = files := by
  have := chunkGo_join B files [] 0 [] h
  simpa [chunkFilesBySize] using this

/-- Witness for C10 at a concrete input. -/
theorem chunk_join_eq_witness :
    (chunkFilesBySize [⟨"a.js".toList, "ab".toList⟩, ⟨"b.js".toList, "cde".toList⟩] 4).flatten =
      [⟨"a.js".toList, "ab".toList⟩, ⟨"b.js".toList, "cde".toList⟩] :=
  chunk_join_eq [⟨"a.js".toList, "ab".toList⟩, ⟨"b.js".toList, "cde".toList⟩] 4 (by decide)

theorem chunkGo_oversized_mem (B : Nat) :
    ∀ (files cur : List CFile) (cs : Nat) (acc : List (List CFile)) (f : CFile),
      f ∈ files → B < f.content.length →
      [truncFile B f] ∈ chunkGo B files cur cs acc := by
  intro files
  induction files with
  | nil =>
    intro cur cs acc f hf
    exact absurd hf (List.not_mem_nil f)
  | cons g rest ih =>
    intro cur cs acc f hf hB
    rcases List.mem_cons.mp hf with rfl | hf'
    · simp only [chunkGo]
      rw [if_pos hB]
      split
      · exact chunkGo_mem_acc B _ _ _ _ _ (List.mem_append_right _ (List.mem_singleton.mpr rfl))
      · exact chunkGo_mem_acc B _ _ _ _ _ (List.mem_append_right _ (List.mem_singleton.mpr rfl))
    · simp only [chunkGo]
      split
      · split
        · exact ih _ _ _ _ hf' hB
        · exact ih _ _ _ _ hf' hB
      · split
        · exact ih _ _ _ _ hf' hB
        · exact ih _ _ _ _ hf' hB

/-- Counterexample for C4 as stated: a file of length 2 with budget 1 is
emitted as its own truncated chunk, but the resulting content length is
41 = 1 + 40 (budget + marker), which exceeds the budget. -/
theorem chunk_truncated_exceeds_budget :
    chunkFilesBySize [⟨"a.js".toList, "ab".toList⟩] 1 =
        [[truncFile 1 ⟨"a.js".toList, "ab".toList⟩]] ∧
      (truncFile 1 (⟨"a.js".toList, "ab".toList⟩ : CFile)).content.length = 41 ∧
      1 < (truncFile 1 (⟨"a.js".toList, "ab".toList⟩ : CFile)).content.length := by
  refine ⟨by decide, by decide, by decide⟩

/-- Claim C4 (amended): every oversized file is emitted as its own
single-element chunk whose content is the budget-length truncation of the
original with the truncation marker appended; the resulting content length is
the budget plus the marker length (so it exceeds the budget by exactly the
marker length). -/
theorem chunk_oversized_own_chunk (files : List CFile) (B : Nat) (f : CFile)
    (hf : f ∈ files) (hB : B < f.content.length) :
    [truncFile B f] ∈ chunkFilesBySize files B ∧
      (truncFile B f).content = f.content.take B ++ truncMarker ∧
      (truncFile B f).content.length = B + truncMarker.length := by
  refine ⟨chunkGo_oversized_mem B files [] 0 [] f hf hB, rfl, ?_⟩
  simp only [truncFile, List.length_append, List.length_take]
  omega

/-- Witness for the amended C4 at a concrete input. -/
theorem chunk_oversized_own_chunk_witness :
    [truncFile 2 (⟨"w.js".toList, "wxyz".toList⟩ : CFile)] ∈
        chunkFilesBySize [⟨"w.js".toList, "wxyz".toList⟩] 2 ∧
      (truncFile 2 (⟨"w.js".toList, "wxyz".toList⟩ : CFile)).content =
        "wxyz".toList.take 2 ++ truncMarker ∧
      (truncFile 2 (⟨"w.js".toList, "wxyz".toList⟩ : CFile)).content.length =
        2 + truncMarker.length :=
  chunk_oversized_own_chunk [⟨"w.js".toList, "wxyz".toList⟩] 2 ⟨"w.js".toList, "wxyz".toList⟩
    (by decide) (by decide)

/-! ## Admission queue (`OperationQueue` in `gitingest/index.js`) -/

/-- Pending backlog entries carry only their priority here; the operation
closures are opaque to the scheduling logic. -/
structure QState where
  queue : List Int
  active : Nat
deriving DecidableEq, Repr

/-- Stable insertion keeping the backlog sorted by descending priority:
the effect of `this.queue.sort((a, b) => b.priority - a.priority)` (a stable
sort) on a sorted backlog extended with a new entry. -/
def insertTaskDesc (p : Int) : List Int → List Int
  | [] => [p]
  | q :: t => if q < p then p :: q :: t else q :: insertTaskDesc p t

/-- Stable descending sort of the backlog (insertion sort, processing arrival
order left to right so equal priorities keep FIFO order). -/
def sortTasks (l : List Int) : List Int := l.foldl (fun acc p => insertTaskDesc p acc) []

/-- `OperationQueue.processNext`: for `active >= maxConcurrent` or an empty
backlog it returns unchanged; otherwise it shifts the backlog head and
increments `active`. -/
def processNext (maxC : Nat) (s : QState) : QState :=
  if maxC ≤ s.active then s
  else
    match s.queue with
    | [] => s
    | _ :: t => ⟨t, s.active + 1⟩

/-- `OperationQueue.add`: push the task, re-sort by descending priority, then
attempt to start execution. -/
def addTask (maxC : Nat) (p : Int) (s : QState) : QState :=
  processNext maxC ⟨sortTasks (s.queue ++ [p]), s.active⟩

/-- Completion of a running operation (the `finally` block of `processNext`):
decrement `active`, then immediately attempt to start the next backlog item. -/
def completeTask (maxC : Nat) (s : QState) : QState :=
  processNext maxC ⟨s.queue, s.active - 1⟩

/-- External events driving an `OperationQueue`: a submission with a priority,
or the completion (success or failure) of a running operation. -/
inductive QEvent where
  | add (p : Int)
  | complete
deriving DecidableEq, Repr

/-- One queue transition. -/
def qstep (maxC : Nat) (s : QState) : QEvent → QState
  | .add p => addTask maxC p s
  | .complete => completeTask maxC s

/-- A queue run from the initial state (`queue = [], active = 0`). -/
def runQueue (maxC : Nat) (evs : List QEvent) : QState :=
  evs.foldl (qstep maxC) ⟨[], 0⟩

theorem processNext_active_le (maxC : Nat) (s : QState) (h : s.active ≤ maxC) :
    (processNext maxC s).active ≤ maxC := by
  unfold processNext
  split
  · exact h
  · rename_i hlt
    match hq : s.queue with
    | [] => exact h
    | q :: t =>
      simp only
      omega

theorem qstep_active_le (maxC : Nat) (s : QState) (e : QEvent) (h : s.active ≤ maxC) :
    (qstep maxC s e).active ≤ maxC := by
  cases e with
  | add p => exact processNext_active_le maxC _ h
  | complete => exact processNext_active_le maxC _ (Nat.le_trans (Nat.sub_le _ _) h)

/-- Claim C5: along every event sequence the number of running operations
never exceeds the bound, and completing an operation while the backlog is
nonempty starts the next backlog item (the active count is restored and the
backlog head is consumed). -/
theorem queue_admission_bound :
    (∀ (maxC : Nat) (evs : List QEvent), (runQueue maxC evs).active ≤ maxC) ∧
      (∀ (maxC : Nat) (s : QState), 0 < s.active → s.active ≤ maxC → s.queue ≠ [] →
        completeTask maxC s = ⟨s.queue.tail, s.active⟩) := by
  constructor
  · intro maxC evs
    suffices h : ∀ (s : QState), s.active ≤ maxC → (evs.foldl (qstep maxC) s).active ≤ maxC by
      exact h ⟨[], 0⟩ (Nat.zero_le _)
    induction evs with
    | nil => intro s hs; exact hs
    | cons e rest ih =>
      intro s hs
      exact ih _ (qstep_active_le maxC s e hs)
  · intro maxC s hpos hle hne
    unfold completeTask processNext
    have hlt : ¬ maxC ≤ s.active - 1 := by omega
    rw [if_neg hlt]
    match hq : s.queue with
    | [] => exact absurd hq hne
    | q :: t =>
      simp only [List.tail_cons]
      congr 1
      omega

/-- Witness for C5 at concrete inputs: three submissions against a bound of 2,
and a completion that starts the pending backlog item. -/
theorem queue_admission_bound_witness :
    (runQueue 2 [QEvent.add 1, QEvent.add 5, QEvent.add 3]).active ≤ 2 ∧
      completeTask 2 ⟨[7], 2⟩ = ⟨[], 2⟩ :=
  ⟨queue_admission_bound.1 2 [QEvent.add 1, QEvent.add 5, QEvent.add 3],
    queue_admission_bound.2 2 ⟨[7], 2⟩ (by decide) (by decide) (by decide)⟩

/-! ## File scanner (`fileProcessorWorker.js`) -/

/-- `FILE_SIZE_LIMIT` (1 MB), from `gitingest/index.js`, passed to the worker
as `workerData.fileSizeLimit`. -/
def FILE_SIZE_LIMIT : Nat := 1048576

/-- `BINARY_EXTENSIONS` from `gitingest/index.js`. -/
def BINARY_EXTENSIONS : List Str :=
  [".jpg".toList, ".jpeg".toList, ".png".toList, ".gif".toList, ".svg".toList,
    ".ico".toList, ".pdf".toList, ".zip".toList, ".tar".toList, ".gz".toList,
    ".7z".toList, ".mp4".toList, ".mp3".toList, ".wav".toList, ".webp".toList,
    ".tiff".toList, ".bin".toList, ".exe".toList, ".dll".toList, ".so".toList,
    ".dylib".toList]

/-- `IGNORED_DIRS` from `gitingest/index.js`. -/
def IGNORED_DIRS : List Str :=
  ["node_modules".toList, ".git".toList, "dist".toList, "build".toList,
    "coverage".toList, "out".toList, ".next".toList, ".nuxt".toList,
    ".cache".toList, ".github".toList, "vendor".toList,
    "bower_components".toList, "target".toList, ".idea".toList, ".vscode".toList]

/-- The `workerData` configuration handed to the file-processor worker. -/
structure ScanCfg where
  ignoredDirs : List Str
  binaryExtensions : List Str
  fileSizeLimit : Nat

/-- A scan result record `{path, content, size}`. -/
structure FRec where
  path : Str
  content : Str
  size : Nat
deriving DecidableEq, Repr

/-- `countNonPrintableChars`: `code < 9 || (code > 10 && code < 32) || code === 127`. -/
def isNonPrintable (c : Char) : Bool :=
  c.toNat < 9 || (decide (10 < c.toNat) && decide (c.toNat < 32)) || c.toNat == 127

/-- `countNonPrintableChars(str)`. -/
def countNonPrintableChars (s : Str) : Nat := s.countP isNonPrintable

/-- A filesystem tree as seen by the worker's `processDirectory`. A `file`
entry carries its `stats.size` (bytes) and its UTF-8-decoded content (the
string obtained from `content.toString('utf8')`); byte-level decoding is
outside the model. -/
inductive FEntry where
  | file (name : Str) (size : Nat) (content : Str)
  | dir (name : Str) (entries : List FEntry)

/-- `processFile(filePath, relativePath)`. `sniff` abstracts the external
`fileTypeFromBuffer` magic-byte detector applied to the first 4096 units of
the content (`true` means a binary signature was detected). `path.extname` is
taken of `pjoin base name`; the source computes it on the absolute
`entryPath`, which has the same basename `name` and hence the same
extension. The ratio test `countNonPrintableChars(s)/s.length > 0.1` is the
exact rational comparison `10 * count > length` (false for empty content,
matching `NaN > 0.1`). -/
def processFileW (cfg : ScanCfg) (sniff : Str → Bool) (base name : Str)
    (size : Nat) (content : Str) : List FRec :=
  let ext := toLowerStr (extnameFull (pjoin base name))
  if cfg.binaryExtensions.contains ext then []
  else if cfg.fileSizeLimit < size then []
  else if sniff (content.take 4096) then []
  else if content.length < 10 * countNonPrintableChars content then []
  else [⟨normalizePath (pjoin base name), content, size⟩]

/-- `processDirectory(dirPath, relativeBase)` over a tree of entries: ignored
directory names are skipped without descending; file entries contribute their
`processFile` output. The worker's batching (batches of 100 combined with
`Promise.all` and concatenated in order) returns exactly this concatenation. -/
def processEntries (cfg : ScanCfg) (sniff : Str → Bool) : Str → List FEntry → List FRec
  | _, [] => []
  | base, FEntry.file n sz c :: rest =>
    processFileW cfg sniff base n sz c ++ processEntries cfg sniff base rest
  | base, FEntry.dir n es :: rest =>
    (if cfg.ignoredDirs.contains n then [] else processEntries cfg sniff (pjoin base n) es) ++
      processEntries cfg sniff base rest

/-- No backslash occurs in the string (true of POSIX path segments; it makes
`normalizePath` the identity). -/
def noBS (s : Str) : Bool := s.all fun c => !(c == '\\')

/-- All entry names in the tree are backslash-free. -/
def entriesNoBS : List FEntry → Bool
  | [] => true
  | FEntry.file n _ _ :: rest => noBS n && entriesNoBS rest
  | FEntry.dir n es :: rest => noBS n && entriesNoBS es && entriesNoBS rest

theorem normalizePath_eq_self (s : Str) (h : noBS s = true) : normalizePath s = s := by
  induction s with
  | nil => rfl
  | cons c t ih =>
    simp only [noBS, List.all_cons, Bool.and_eq_true, Bool.not_eq_true', beq_eq_false_iff_ne,
      ne_eq] at h
    simp only [normalizePath, List.map_cons]
    rw [if_neg h.1]
    have := ih (by simpa [noBS] using h.2)
    simpa [normalizePath] using this

theorem pjoin_noBS (a b : Str) (ha : noBS a = true) (hb : noBS b = true) :
    noBS (pjoin a b) = true := by
  unfold pjoin
  split
  · exact hb
  · simp only [noBS, List.all_append, List.all_cons] at *
    simp [ha, hb]

theorem processFileW_sound (cfg : ScanCfg) (sniff : Str → Bool) (base name : Str)
    (size : Nat) (content : Str) (hb : noBS base = true) (hn : noBS name = true) :
    ∀ r ∈ processFileW cfg sniff base name size content,
      r.size ≤ cfg.fileSizeLimit ∧
        10 * countNonPrintableChars r.content ≤ r.content.length ∧
        cfg.binaryExtensions.contains (toLowerStr (extnameFull r.path)) = false := by
  intro r hr
  simp only [processFileW] at hr
  split at hr
  · exact absurd hr (List.not_mem_nil r)
  · split at hr
    · exact absurd hr (List.not_mem_nil r)
    · split at hr
      · exact absurd hr (List.not_mem_nil r)
      · split at hr
        · exact absurd hr (List.not_mem_nil r)
        · rename_i hext hsize hsniff hnpc
          simp only [List.mem_singleton] at hr
          subst hr
          refine ⟨Nat.le_of_not_lt hsize, Nat.le_of_not_lt hnpc, ?_⟩
          simp only
          rw [normalizePath_eq_self _ (pjoin_noBS base name hb hn)]
          exact Bool.of_not_eq_true hext

theorem processEntries_sound (cfg : ScanCfg) (sniff : Str → Bool) :
    ∀ (base : Str) (l : List FEntry), noBS base = true → entriesNoBS l = true →
      ∀ r ∈ processEntries cfg sniff base l,
        r.size ≤ cfg.fileSizeLimit ∧
          10 * countNonPrintableChars r.content ≤ r.content.length ∧
          cfg.binaryExtensions.contains (toLowerStr (extnameFull r.path)) = false := by
  intro base l
  induction base, l using processEntries.induct cfg sniff with
  | case1 base =>
    intro _ _ r hr
    simp only [processEntries] at hr
    exact absurd hr (List.not_mem_nil r)
  | case2 base n sz c rest ih =>
    intro hbase hl r hr
    simp only [entriesNoBS, Bool.and_eq_true] at hl
    simp only [processEntries] at hr
    rcases List.mem_append.mp hr with h | h
    · exact processFileW_sound cfg sniff base n sz c hbase hl.1 r h
    · exact ih hbase hl.2 r h
  | case3 base n es rest ih1 ih2 =>
    intro hbase hl r hr
    simp only [entriesNoBS, Bool.and_eq_true] at hl
    simp only [processEntries] at hr
    rcases List.mem_append.mp hr with h | h
    · split at h
      · exact absurd h (List.not_mem_nil r)
      · exact ih1 (pjoin_noBS base n hbase hl.1.1) hl.1.2 r h
    · exact ih2 hbase hl.2 r h

/-- Claim C6: (1) a file whose lowercased extension is in the binary
denylist produces no record; (2) a file whose size exceeds the per-file limit
produces no record; (3) a file with more than 10% non-printable characters
produces no record; (4) consequently every record of a whole-tree scan
satisfies all three bounds, so no such file appears in the scan result. -/
theorem scanner_filter_bounds :
    (∀ (cfg : ScanCfg) (sniff : Str → Bool) (base name : Str) (size : Nat) (content : Str),
        cfg.binaryExtensions.contains (toLowerStr (extnameFull (pjoin base name))) = true →
        processFileW cfg sniff base name size content = []) ∧
      (∀ (cfg : ScanCfg) (sniff : Str → Bool) (base name : Str) (size : Nat) (content : Str),
        cfg.fileSizeLimit < size →
        processFileW cfg sniff base name size content = []) ∧
      (∀ (cfg : ScanCfg) (sniff : Str → Bool) (base name : Str) (size : Nat) (content : Str),
        content.length < 10 * countNonPrintableChars content →
        processFileW cfg sniff base name size content = []) ∧
      (∀ (cfg : ScanCfg) (sniff : Str → Bool) (base : Str) (l : List FEntry),
        noBS base = true → entriesNoBS l = true →
        ∀ r ∈ processEntries cfg sniff base l,
          r.size ≤ cfg.fileSizeLimit ∧
            10 * countNonPrintableChars r.content ≤ r.content.length ∧
            cfg.binaryExtensions.contains (toLowerStr (extnameFull r.path)) = false) := by
  refine ⟨?_, ?_, ?_, processEntries_sound⟩
  · intro cfg sniff base name size content h
    simp only [processFileW]
    rw [if_pos h]
  · intro cfg sniff base name size content h
    simp only [processFileW]
    by_cases h1 : cfg.binaryExtensions.contains (toLowerStr (extnameFull (pjoin base name))) = true
    · rw [if_pos h1]
    · rw [if_neg h1, if_pos h]
  · intro cfg sniff base name size content h
    simp only [processFileW]
    by_cases h1 : cfg.binaryExtensions.contains (toLowerStr (extnameFull (pjoin base name))) = true
    · rw [if_pos h1]
    · rw [if_neg h1]
      by_cases h2 : cfg.fileSizeLimit < size
      · rw [if_pos h2]
      · rw [if_neg h2]
        by_cases h3 : sniff (content.take 4096) = true
        · rw [if_pos h3]
        · rw [if_neg h3, if_pos h]

/-- The worker configuration actually passed by `GitIngestManager.readRepoFiles`. -/
def workerCfg : ScanCfg := ⟨IGNORED_DIRS, BINARY_EXTENSIONS, FILE_SIZE_LIMIT⟩

/-- Witness for C6 at concrete inputs: a `.jpg` file, an over-limit file, a
file of only control characters, and a concrete one-file tree scan. -/
theorem scanner_filter_bounds_witness :
    processFileW workerCfg (fun _ => false) [] "pic.jpg".toList 3 "abc".toList = [] ∧
      processFileW workerCfg (fun _ => false) [] "big.js".toList 1048577 "x".toList = [] ∧
      processFileW workerCfg (fun _ => false) [] "blob.txt".toList 1 [Char.ofNat 0] = [] ∧
      ((⟨"a.js".toList, "abc".toList, 3⟩ : FRec).size ≤ workerCfg.fileSizeLimit ∧
        10 * countNonPrintableChars (⟨"a.js".toList, "abc".toList, 3⟩ : FRec).content ≤
          (⟨"a.js".toList, "abc".toList, 3⟩ : FRec).content.length ∧
        workerCfg.binaryExtensions.contains
          (toLowerStr (extnameFull (⟨"a.js".toList, "abc".toList, 3⟩ : FRec).path)) = false) := by
  refine ⟨scanner_filter_bounds.1 workerCfg _ [] _ 3 _ (by decide),
    scanner_filter_bounds.2.1 workerCfg _ [] _ 1048577 _ (by decide),
    scanner_filter_bounds.2.2.1 workerCfg _ [] _ 1 _ (by decide),
    scanner_filter_bounds.2.2.2 workerCfg (fun _ => false) []
      [FEntry.file "a.js".toList 3 "abc".toList] (by decide)
      (by simp only [entriesNoBS]; decide)
      ⟨"a.js".toList, "abc".toList, 3⟩ ?_⟩
  simp only [processEntries]
  decide

/-! ## Call scheduler retry loop (`MCPManager._executePromptProcessing`) -/

/-- `const maxRetries = 3`. -/
def maxRetries : Nat := 3

/-- `Math.min(1000 * Math.pow(2, attempt - 1), 10000)`. -/
def backoffMs (attempt : Nat) : Nat := min (1000 * 2 ^ (attempt - 1)) 10000

/-- What the remote endpoint does on one attempt, as observed by the loop:
a valid completion with content; a completion carrying an embedded `error`
object (`completion.error`); a thrown client error carrying
`response.data.error` (with an optional `retry-after` header, in ms as the
code consumes it); a thrown validation error for a malformed completion
(empty response / no choices / no message content); a thrown `FetchError`. -/
inductive ApiOutcome where
  | ok (text : Str)
  | errorField (code : Int) (msg : Str)
  | httpError (code : Int) (msg : Str) (retryAfter : Option Nat)
  | malformed (msg : Str)
  | network (msg : Str)
deriving DecidableEq, Repr

/-- The data of a caught JS error that `_handleError` inspects. -/
structure ErrorRep where
  msg : Str
  apiCode : Option Int
  isFetch : Bool
deriving DecidableEq, Repr

/-- `throw lastError || new Error('Failed to process documentation')`. -/
def lastErrMsg : Option ErrorRep → Str
  | none => "Failed to process documentation".toList
  | some e => e.msg

/-- `apiError.message || 'Unknown API error'`. -/
def orDefaultMsg (s : Str) : Str := if s.isEmpty then "Unknown API error".toList else s

/-- `MCPManager._handleError` (message transformation). -/
def handleErrorMsg (model : Str) (e : ErrorRep) : Str :=
  match e.apiCode with
  | some c =>
    if c = 401 then "Invalid OpenRouter API key".toList
    else if c = 402 then "Insufficient OpenRouter credits".toList
    else if c = 404 then
      "Model not found: '".toList ++ model ++ "' - check OPENROUTER_MODEL setting".toList
    else if c = 429 then "Rate limit exceeded - please try again later".toList
    else "OpenRouter error: ".toList ++ orDefaultMsg e.msg
  | none =>
    if e.isFetch then
      "Network error connecting to OpenRouter - please check your internet connection".toList
    else if containsSub "Invalid response".toList e.msg ||
        containsSub "Empty response".toList e.msg then
      "OpenRouter API response error: ".toList ++ e.msg ++
        ". This may be a temporary issue, please try again.".toList
    else e.msg

/-- Result of one attempt of the retry loop body: either the loop finishes
with a result, or it sleeps for `delay` ms and retries, with the recorded
`lastError` for the post-loop `throw lastError || ...`. -/
inductive StepRes where
  | done (r : Except Str Str)
  | retry (delay : Nat) (le : Option ErrorRep)

/-- One iteration of the `for (attempt = 1; attempt <= maxRetries)` body at
attempt `a`, given the endpoint outcome. Mirrors, in order: the
`completion.error` check (429 → backoff and `continue` without touching
`lastError`; otherwise a thrown generic error), response validation, the
caught-error dispatch on `response.data.error` (429 honours the
`retry-after` header, 404 and 401/402/403 are terminal), and the generic
retry with exponential backoff, applying `_handleError` on the final
attempt. -/
def classifyAttempt (model : Str) (a : Nat) (lastErr : Option ErrorRep) :
    ApiOutcome → StepRes
  | .ok t => .done (.ok t)
  | .errorField code msg =>
    if code = 429 then .retry (backoffMs a) lastErr
    else
      let e : ErrorRep := ⟨"OpenRouter API error: ".toList ++ msg, none, false⟩
      if a = maxRetries then .done (.error (handleErrorMsg model e))
      else .retry (backoffMs a) (some e)
  | .httpError code msg retryAfter =>
    let e : ErrorRep := ⟨msg, some code, false⟩
    if code = 429 then .retry (retryAfter.getD (backoffMs a)) (some e)
    else if code = 404 then
      .done (.error ("OpenRouter API error: Model '".toList ++ model ++
        "' not found or unavailable".toList))
    else if code = 401 ∨ code = 402 ∨ code = 403 then
      .done (.error ("OpenRouter API error: ".toList ++ orDefaultMsg msg))
    else if a = maxRetries then .done (.error (handleErrorMsg model e))
    else .retry (backoffMs a) (some e)
  | .malformed msg =>
    let e : ErrorRep := ⟨msg, none, false⟩
    if a = maxRetries then .done (.error (handleErrorMsg model e))
    else .retry (backoffMs a) (some e)
  | .network msg =>
    let e : ErrorRep := ⟨msg, none, true⟩
    if a = maxRetries then .done (.error (handleErrorMsg model e))
    else .retry (backoffMs a) (some e)

/-- Observable outcome of `_executePromptProcessing`: the final result, the
number of remote calls issued, and the sleeps performed between attempts. -/
structure RunResult where
  result : Except Str Str
  calls : Nat
  delays : List Nat
deriving Repr

/-- The retry loop with `rem` attempts remaining, current attempt number `a`. -/
def execGo (model : Str) (oracle : Nat → ApiOutcome) : Nat → Nat → Option ErrorRep → RunResult
  | 0, _, lastErr => ⟨.error (lastErrMsg lastErr), 0, []⟩
  | rem + 1, a, lastErr =>
    match classifyAttempt model a lastErr (oracle a) with
    | .done r => ⟨r, 1, []⟩
    | .retry d le =>
      let sub := execGo model oracle rem (a + 1) le
      ⟨sub.result, sub.calls + 1, d :: sub.delays⟩

/-- `MCPManager._executePromptProcessing`, attempts numbered from 1. -/
def executePromptProcessing (model : Str) (oracle : Nat → ApiOutcome) : RunResult :=
  execGo model oracle maxRetries 1 none

/-- Rate-limit outcomes: embedded `completion.error.code === 429` or thrown
error with `response.data.error.code === 429`. -/
def isRateLimit : ApiOutcome → Bool
  | .errorField code _ => code == 429
  | .httpError code _ _ => code == 429
  | _ => false

/-- The delay the code sleeps after a rate-limited attempt `a`: the
`retry-after` header when present, otherwise the capped exponential backoff. -/
def rlDelay (a : Nat) : ApiOutcome → Nat
  | .httpError _ _ retryAfter => retryAfter.getD (backoffMs a)
  | _ => backoffMs a

theorem execGo_calls_le (model : Str) (oracle : Nat → ApiOutcome) :
    ∀ (rem a : Nat) (le : Option ErrorRep), (execGo model oracle rem a le).calls ≤ rem := by
  intro rem
  induction rem with
  | zero => intro a le; simp [execGo]
  | succ n ih =>
    intro a le
    simp only [execGo]
    match classifyAttempt model a le (oracle a) with
    | .done r => simp
    | .retry d le' =>
      simp only
      have := ih (a + 1) le'
      omega

/-- Claim C8: the retry loop never issues more than `maxRetries` remote
calls; and whenever every attempt before `k` is rate-limited and attempt `k`
(`k ≤ maxRetries`) returns a valid response, the loop returns that response's
text after exactly `k` calls, sleeping after each rate-limited attempt for
the server `retry-after` hint when present and the capped exponential
backoff otherwise. -/
theorem retry_rate_limited_success :
    (∀ (model : Str) (oracle : Nat → ApiOutcome),
        (executePromptProcessing model oracle).calls ≤ maxRetries) ∧
      (∀ (model : Str) (oracle : Nat → ApiOutcome) (k : Nat) (t : Str),
        1 ≤ k → k ≤ maxRetries →
        (∀ i, 1 ≤ i → i < k → isRateLimit (oracle i) = true) →
        oracle k = ApiOutcome.ok t →
        (executePromptProcessing model oracle).result = Except.ok t ∧
          (executePromptProcessing model oracle).calls = k ∧
          (executePromptProcessing model oracle).delays =
            (List.range (k - 1)).map fun i => rlDelay (i + 1) (oracle (i + 1))) := by
  constructor
  · intro model oracle
    exact execGo_calls_le model oracle maxRetries 1 none
  · intro model oracle k t hk1 hk3 hrl hok
    simp only [maxRetries] at hk3
    interval_cases k
    · refine ⟨?_, ?_, ?_⟩ <;>
        simp [executePromptProcessing, execGo, maxRetries, hok, classifyAttempt]
    · have h1 := hrl 1 (by omega) (by omega)
      cases ho1 : oracle 1 with
      | ok t1 => rw [ho1] at h1; simp [isRateLimit] at h1
      | malformed m1 => rw [ho1] at h1; simp [isRateLimit] at h1
      | network m1 => rw [ho1] at h1; simp [isRateLimit] at h1
      | errorField c1 m1 =>
        rw [ho1] at h1
        simp only [isRateLimit, beq_iff_eq] at h1
        subst h1
        refine ⟨?_, ?_, ?_⟩ <;>
          simp [executePromptProcessing, execGo, maxRetries, ho1, hok, classifyAttempt,
            rlDelay, List.range_succ]
      | httpError c1 m1 ra1 =>
        rw [ho1] at h1
        simp only [isRateLimit, beq_iff_eq] at h1
        subst h1
        refine ⟨?_, ?_, ?_⟩ <;>
          simp [executePromptProcessing, execGo, maxRetries, ho1, hok, classifyAttempt,
            rlDelay, List.range_succ]
    · have h1 := hrl 1 (by omega) (by omega)
      have h2 := hrl 2 (by omega) (by omega)
      cases ho1 : oracle 1 with
      | ok t1 => rw [ho1] at h1; simp [isRateLimit] at h1
      | malformed m1 => rw [ho1] at h1; simp [isRateLimit] at h1
      | network m1 => rw [ho1] at h1; simp [isRateLimit] at h1
      | errorField c1 m1 =>
        rw [ho1] at h1
        simp only [isRateLimit, beq_iff_eq] at h1
        subst h1
        cases ho2 : oracle 2 with
        | ok t2 => rw [ho2] at h2; simp [isRateLimit] at h2
        | malformed m2 => rw [ho2] at h2; simp [isRateLimit] at h2
        | network m2 => rw [ho2] at h2; simp [isRateLimit] at h2
        | errorField c2 m2 =>
          rw [ho2] at h2
          simp only [isRateLimit, beq_iff_eq] at h2
          subst h2
          refine ⟨?_, ?_, ?_⟩ <;>
            simp [executePromptProcessing, execGo, maxRetries, ho1, ho2, hok, classifyAttempt,
              rlDelay, List.range_succ]
        | httpError c2 m2 ra2 =>
          rw [ho2] at h2
          simp only [isRateLimit, beq_iff_eq] at h2
          subst h2
          refine ⟨?_, ?_, ?_⟩ <;>
            simp [executePromptProcessing, execGo, maxRetries, ho1, ho2, hok, classifyAttempt,
              rlDelay, List.range_succ]
      | httpError c1 m1 ra1 =>
        rw [ho1] at h1
        simp only [isRateLimit, beq_iff_eq] at h1
        subst h1
        cases ho2 : oracle 2 with
        | ok t2 => rw [ho2] at h2; simp [isRateLimit] at h2
        | malformed m2 => rw [ho2] at h2; simp [isRateLimit] at h2
        | network m2 => rw [ho2] at h2; simp [isRateLimit] at h2
        | errorField c2 m2 =>
          rw [ho2] at h2
          simp only [isRateLimit, beq_iff_eq] at h2
          subst h2
          refine ⟨?_, ?_, ?_⟩ <;>
            simp [executePromptProcessing, execGo, maxRetries, ho1, ho2, hok, classifyAttempt,
              rlDelay, List.range_succ]
        | httpError c2 m2 ra2 =>
          rw [ho2] at h2
          simp only [isRateLimit, beq_iff_eq] at h2
          subst h2
          refine ⟨?_, ?_, ?_⟩ <;>
            simp [executePromptProcessing, execGo, maxRetries, ho1, ho2, hok, classifyAttempt,
              rlDelay, List.range_succ]

/-- A concrete endpoint behavior: attempt 1 is rate-limited with a
`retry-after` of 5000 ms, attempt 2 succeeds. -/
def rateLimitedOracle : Nat → ApiOutcome := fun a =>
  if a = 1 then ApiOutcome.httpError 429 "rate limited".toList (some 5000)
  else ApiOutcome.ok "generated docs".toList

/-- Witness for C8 at the concrete oracle. -/
theorem retry_rate_limited_success_witness :
    (executePromptProcessing "m".toList rateLimitedOracle).result =
        Except.ok "generated docs".toList ∧
      (executePromptProcessing "m".toList rateLimitedOracle).calls = 2 ∧
      (executePromptProcessing "m".toList rateLimitedOracle).delays =
        (List.range 1).map fun i => rlDelay (i + 1) (rateLimitedOracle (i + 1)) :=
  retry_rate_limited_success.2 "m".toList rateLimitedOracle 2 "generated docs".toList
    (by decide) (by decide)
    (fun i hi1 hi2 => by
      have hi : i = 1 := by omega
      subst hi
      decide)
    (by decide)

/-! ## Clone fallback (`GitIngestManager.cloneRepo` → `GitExecutor.cloneRepository`)

`cloneRepository` has positional parameters
`(repoUrl, targetPath, branch = '', shallow = true)`, but `cloneRepo` calls it
as `cloneRepository(repoUrl, repoPath, {depth: 1, branch, singleBranch: true,
noTags: true})` — the options object is bound to the `branch` parameter.
A JS object is truthy and interpolates into a template string as
`[object Object]`. -/

/-- A JS value bound to the `branch` parameter: a string, or a plain object. -/
inductive JSArg where
  | jstr (s : String)
  | jobj (fields : List (String × String))

/-- JS truthiness of the `branch` argument (`if (branch)`). -/
def jsTruthy : JSArg → Bool
  | .jstr s => !s.isEmpty
  | .jobj _ => true

/-- JS template-string conversion (`` ` -b ${branch}` ``). -/
def jsToString : JSArg → String
  | .jstr s => s
  | .jobj _ => "[object Object]"

/-- The command string `cloneRepository` builds:
`git clone` + (` --depth 1` if shallow) + (` -b ${branch}` if truthy) +
`` ` ${repoUrl} ${targetPath}` ``. -/
def buildCloneCommand (repoUrl targetPath : String) (branch : JSArg) (shallow : Bool) : String :=
  "git clone" ++ (if shallow then " --depth 1" else "") ++
    (if jsTruthy branch then " -b " ++ jsToString branch else "") ++
    " " ++ repoUrl ++ " " ++ targetPath

/-- The third argument `cloneRepo` passes on the first attempt:
`{depth: 1, branch, singleBranch: true, noTags: true}` (field values shown
stringified). -/
def cloneRepoFirstArg (branch : String) : JSArg :=
  .jobj [("depth", "1"), ("branch", branch), ("singleBranch", "true"), ("noTags", "true")]

/-- The third argument `cloneRepo` passes on the branch-not-found fallback:
`{depth: 1, singleBranch: true, noTags: true}`. -/
def cloneRepoFallbackArg : JSArg :=
  .jobj [("depth", "1"), ("singleBranch", "true"), ("noTags", "true")]

/-- The git command issued by the first clone attempt for a requested branch. -/
def firstAttemptCloneCommand (repoUrl targetPath branch : String) : String :=
  buildCloneCommand repoUrl targetPath (cloneRepoFirstArg branch) true

/-- The git command issued by the default-branch fallback attempt. -/
def fallbackCloneCommand (repoUrl targetPath : String) : String :=
  buildCloneCommand repoUrl targetPath cloneRepoFallbackArg true

/-- The string executed by the post-fallback branch read: the code calls
`GitExecutor.executeGitCommand(repoPath, ['branch'])`, whose first positional
parameter is the command to execute — so `repoPath` itself is executed (and
`['branch']` is bound to `cwd`), not `git branch`. -/
def branchReadCommand (repoPath : String) : String := repoPath

/-- Claim C7 is contradicted by the code: the requested branch never reaches
the clone command (the options object stringifies to `[object Object]`), the
fallback issues the byte-identical command that just failed — so it cannot
clone the repository's default branch — and the follow-up "read the
checked-out branch" invocation executes the repository path as the command.
Hence no cache entry recording the resolved default branch can be produced
by this path. -/
theorem clone_fallback_broken (repoUrl targetPath branch otherBranch : String) :
    firstAttemptCloneCommand repoUrl targetPath branch =
        "git clone --depth 1 -b [object Object] " ++ repoUrl ++ " " ++ targetPath ∧
      fallbackCloneCommand repoUrl targetPath = firstAttemptCloneCommand repoUrl targetPath branch ∧
      firstAttemptCloneCommand repoUrl targetPath branch =
        firstAttemptCloneCommand repoUrl targetPath otherBranch ∧
      branchReadCommand targetPath = targetPath :=
  ⟨rfl, rfl, rfl, rfl⟩

/-! ## Documentation orchestrator (`MCPManager.processWithContext`) -/

/-- An inline input file `{path, content, ...}`; either field may be absent
(`none`) or present. JS falsiness conflates a missing field with the empty
string, via `truthyStr`. -/
structure InputFile where
  path : Option Str
  content : Option Str
deriving DecidableEq, Repr

/-- JS truthiness of an optional string field. -/
def truthyStr : Option Str → Bool
  | none => false
  | some s => !s.isEmpty

/-- `skippedDirs` from `_filterFiles` (substring match on the lowercased path). -/
def skippedDirs : List Str :=
  ["dist".toList, "build".toList, "node_modules".toList, "coverage".toList,
    ".cache".toList, "__pycache__".toList]

/-- `skippedExtensions` from `_filterFiles`. -/
def skippedExtensions : List Str :=
  [".pyc".toList, ".pyo".toList, ".pyd".toList, ".so".toList, ".dll".toList,
    ".class".toList, ".o".toList, ".obj".toList, ".log".toList]

/-- `this.allowedExtensions` from the `MCPManager` constructor. -/
def allowedExtensions : List Str :=
  [".md".toList, ".mdx".toList, ".markdown".toList, ".txt".toList, ".rst".toList,
    ".js".toList, ".jsx".toList, ".ts".toList, ".tsx".toList, ".py".toList,
    ".java".toList, ".c".toList, ".cpp".toList, ".h".toList, ".hpp".toList,
    ".cs".toList, ".go".toList, ".rb".toList, ".php".toList, ".swift".toList,
    ".kt".toList, ".rs".toList, ".html".toList, ".css".toList, ".scss".toList,
    ".sass".toList, ".less".toList, ".json".toList, ".yaml".toList, ".yml".toList,
    ".toml".toList, ".ini".toList, ".env.example".toList, ".sh".toList,
    ".bash".toList, ".zsh".toList, ".fish".toList]

/-- `maxIndividualFileSize` (1 MB) from `_filterFiles`. -/
def maxIndividualFileSize : Nat := 1048576

/-- The per-file predicate of `MCPManager._filterFiles`, in source order:
falsy path/content, skipped directory substrings (on the lowercased path),
skipped extensions, the 1 MB cap, extensionless files allowed, otherwise the
allow-list. -/
def fileOk (f : InputFile) : Bool :=
  if !truthyStr f.path || !truthyStr f.content then false
  else
    let p := toLowerStr (f.path.getD [])
    if skippedDirs.any fun d => containsSub d p then false
    else
      let ext := extnameFull p
      if skippedExtensions.contains ext then false
      else if maxIndividualFileSize < (f.content.getD []).length then false
      else if ext.isEmpty then true
      else allowedExtensions.contains ext

/-- `MCPManager._filterFiles`. -/
def filterFiles (files : List InputFile) : List InputFile := files.filter fileOk

/-- The per-file fingerprint component
`${file.path}:${file.content ? file.content.length : 0}` (a missing path
interpolates as `undefined`). -/
def fpPart (f : InputFile) : Str :=
  (match f.path with | some p => p | none => "undefined".toList) ++ ":".toList ++
    natToStr (if truthyStr f.content then (f.content.getD []).length else 0)

/-- JS string `<` (UTF-16 code-unit lexicographic order). -/
def strLt : Str → Str → Bool
  | [], [] => false
  | [], _ :: _ => true
  | _ :: _, [] => false
  | a :: as, b :: bs =>
    if a.toNat < b.toNat then true
    else if b.toNat < a.toNat then false
    else strLt as bs

/-- Insertion into a sorted list of strings. -/
def insertSorted (x : Str) : List Str → List Str
  | [] => [x]
  | y :: t => if strLt x y then x :: y :: t else y :: insertSorted x t

/-- JS `Array.prototype.sort()` on strings (insertion sort; equal keys are
identical strings so stability is immaterial for the joined result). -/
def sortStrings : List Str → List Str
  | [] => []
  | x :: t => insertSorted x (sortStrings t)

/-- `MCPManager._generateCacheKey` for an array input:
`docs_${quickHash(files.map(fp).join('|'))}_${quickHash(sortedCtxKeys.join('|'))}`.
Only the context's keys enter the key, sorted. -/
def generateCacheKey (files : List InputFile) (ctxKeys : List Str) : Str :=
  "docs_".toList ++ quickHash (joinSep "|".toList (files.map fpPart)) ++
    "_".toList ++ quickHash (joinSep "|".toList (sortStrings ctxKeys))

/-- A produced artifact `{path, content, type: 'documentation'}`. -/
structure DocFile where
  path : Str
  content : Str
  type : Str
deriving DecidableEq, Repr

/-- The `NodeCache` result cache, modelled as an association list of live
(unexpired) entries; `set` prepends (a within-TTL `get` then finds exactly
the stored value — `useClones: false` returns the stored object itself).
`maxKeys` overflow is not modelled (the cache stays below 1000 keys). -/
abbrev ResultCache := List (Str × List DocFile)

/-- `_handleError` applied to the plain validation `Error`: it has no
`response` and is not a `FetchError`, and the message contains neither
`'Invalid response'` nor `'Empty response'`, so it is returned unchanged
(the model name is irrelevant on this path). -/
def handledValidationError (msg : Str) : Str := handleErrorMsg [] ⟨msg, none, false⟩

/-- Observable outcome of one `processWithContext` call: the returned or
thrown value, the result cache afterwards, and how many remote completions
were issued during the call. -/
structure PWCOut where
  result : Except Str (List DocFile)
  cache : ResultCache
  remoteCalls : Nat

/-- `MCPManager.processWithContext(content, context)` for an array input.
`_parseContent` returns an array argument unchanged. The remote stage
`_generateDocumentation` is abstracted by the deterministic oracle `gen`
(the artifact map, in `Object.entries` order) and `genCalls` (the number of
remote completions it issues); the orchestrator maps its entries to
`{path, content, type: 'documentation'}` records, caches and returns them. -/
def processWithContext (gen : List InputFile → List Str → List (Str × Str))
    (genCalls : List InputFile → List Str → Nat)
    (cache : ResultCache) (files : List InputFile) (ctxKeys : List Str) : PWCOut :=
  let cacheKey := generateCacheKey files ctxKeys
  match cache.lookup cacheKey with
  | some v => ⟨.ok v, cache, 0⟩
  | none =>
    let filtered := filterFiles files
    if filtered.isEmpty then
      ⟨.error (handledValidationError "No valid files to process after filtering".toList),
        cache, 0⟩
    else
      let docFiles := (gen filtered ctxKeys).map fun kv =>
        DocFile.mk kv.1 kv.2 "documentation".toList
      ⟨.ok docFiles, (cacheKey, docFiles) :: cache, genCalls filtered ctxKeys⟩

theorem lookup_insert_self (k : Str) (v : List DocFile) (c : ResultCache) :
    ((k, v) :: c).lookup k = some v := by
  simp [List.lookup]

/-- Claim C1: a second `processWithContext` call whose input has the same
fingerprint (per-file `path:length` components and sorted context keys) as a
previous successful call, against the cache that call left behind, returns
the identical artifact list, leaves the cache unchanged, and issues no
remote call. -/
theorem result_cache_hit (gen : List InputFile → List Str → List (Str × Str))
    (genCalls : List InputFile → List Str → Nat) (cache : ResultCache)
    (files : List InputFile) (ctx : List Str) (files2 : List InputFile) (ctx2 : List Str)
    (hfp : files2.map fpPart = files.map fpPart)
    (hctx : sortStrings ctx2 = sortStrings ctx)
    (r : List DocFile) (cache2 : ResultCache) (n : Nat)
    (h1 : processWithContext gen genCalls cache files ctx = ⟨.ok r, cache2, n⟩) :
    processWithContext gen genCalls cache2 files2 ctx2 = ⟨.ok r, cache2, 0⟩ := by
  have hkey : generateCacheKey files2 ctx2 = generateCacheKey files ctx := by
    unfold generateCacheKey
    rw [hfp, hctx]
  simp only [processWithContext] at h1 ⊢
  rw [hkey]
  split at h1
  · rename_i v hl
    simp only [PWCOut.mk.injEq, Except.ok.injEq] at h1
    obtain ⟨rfl, rfl, rfl⟩ := h1
    rw [hl]
  · rename_i hl
    split at h1
    · simp only [PWCOut.mk.injEq] at h1
      exact absurd h1.1 (by simp)
    · simp only [PWCOut.mk.injEq, Except.ok.injEq] at h1
      obtain ⟨rfl, rfl, rfl⟩ := h1
      rw [lookup_insert_self]

/-- Concrete generation oracle for the C1 witness. -/
def genW1 : List InputFile → List Str → List (Str × Str) :=
  fun _ _ => [("overview.md".toList, "body".toList)]

/-- Concrete remote-call counter for the C1 witness. -/
def genCallsW1 : List InputFile → List Str → Nat := fun _ _ => 2

/-- Concrete input files for the C1 witness. -/
def filesW1 : List InputFile := [⟨some "app.js".toList, some "hello".toList⟩]

/-- The artifacts the C1 witness generation produces. -/
def docsW1 : List DocFile := [⟨"overview.md".toList, "body".toList, "documentation".toList⟩]

/-- The cache state after the first C1 witness call. -/
def cacheW1 : ResultCache := [(generateCacheKey filesW1 [], docsW1)]

/-- Witness for C1: the second identical call returns the cached artifacts
with zero remote calls. -/
theorem result_cache_hit_witness :
    processWithContext genW1 genCallsW1 cacheW1 filesW1 [] = ⟨.ok docsW1, cacheW1, 0⟩ :=
  result_cache_hit genW1 genCallsW1 [] filesW1 [] filesW1 [] rfl rfl docsW1 cacheW1 2 rfl

theorem pwc_filtered_empty (gen : List InputFile → List Str → List (Str × Str))
    (genCalls : List InputFile → List Str → Nat) (cache : ResultCache)
    (files : List InputFile) (ctx : List Str)
    (hmiss : cache.lookup (generateCacheKey files ctx) = none)
    (hempty : filterFiles files = []) :
    processWithContext gen genCalls cache files ctx =
      ⟨.error "No valid files to process after filtering".toList, cache, 0⟩ := by
  have hmsg : handledValidationError "No valid files to process after filtering".toList =
      "No valid files to process after filtering".toList := by decide
  simp [processWithContext, hmiss, hempty, hmsg]
  decide

theorem pwc_filtered_empty_no_calls (gen : List InputFile → List Str → List (Str × Str))
    (genCalls : List InputFile → List Str → Nat) (cache : ResultCache)
    (files : List InputFile) (ctx : List Str)
    (hempty : filterFiles files = []) :
    (processWithContext gen genCalls cache files ctx).remoteCalls = 0 := by
  simp only [processWithContext]
  split
  · rfl
  · simp [hempty]

/-- Claim C2 (amended): when the result cache holds no entry under the
input's cache key — in particular on a fresh instance — a call whose file
list is empty or becomes empty after filtering fails with the
`'No valid files to process after filtering'` error, leaves the cache
unchanged, and issues no remote call; and regardless of the cache state such
a call never issues a remote call. -/
theorem generate_no_valid_files_error :
    (∀ (gen : List InputFile → List Str → List (Str × Str))
        (genCalls : List InputFile → List Str → Nat) (cache : ResultCache)
        (files : List InputFile) (ctx : List Str),
        cache.lookup (generateCacheKey files ctx) = none →
        filterFiles files = [] →
        processWithContext gen genCalls cache files ctx =
          ⟨.error "No valid files to process after filtering".toList, cache, 0⟩) ∧
      (∀ (gen : List InputFile → List Str → List (Str × Str))
        (genCalls : List InputFile → List Str → Nat) (cache : ResultCache)
        (files : List InputFile) (ctx : List Str),
        filterFiles files = [] →
        (processWithContext gen genCalls cache files ctx).remoteCalls = 0) :=
  ⟨pwc_filtered_empty, pwc_filtered_empty_no_calls⟩

/-- Witness for the amended C2: an empty submission on a fresh cache errors
without remote calls, and a fully-filtered submission issues no remote call. -/
theorem generate_no_valid_files_error_witness :
    processWithContext (fun _ _ => []) (fun _ _ => 0) [] [] [] =
        ⟨.error "No valid files to process after filtering".toList, [], 0⟩ ∧
      (processWithContext (fun _ _ => []) (fun _ _ => 0) []
          [⟨some "x.pyc".toList, some "a".toList⟩] []).remoteCalls = 0 :=
  ⟨generate_no_valid_files_error.1 _ _ [] [] [] rfl rfl,
    generate_no_valid_files_error.2 _ _ [] [⟨some "x.pyc".toList, some "a".toList⟩] []
      (by decide)⟩

/-- Concrete generation oracle for the collision counterexamples. -/
def genX : List InputFile → List Str → List (Str × Str) :=
  fun _ _ => [("overview.md".toList, "overview body".toList)]

/-- Concrete remote-call counter for the collision counterexamples. -/
def genCallsX : List InputFile → List Str → Nat := fun _ _ => 1

/-- A valid one-file submission whose fingerprint string
`src/mvjxvhq.js:3` has the same `_quickHash` value (746214099) as the
fully-filtered submission below. -/
def filesA2 : List InputFile := [⟨some "src/mvjxvhq.js".toList, some "abc".toList⟩]

/-- A nonempty submission that is fully filtered (`.pyc` is a skipped
extension); its fingerprint string `guwhrje.pyc:3` collides with the one
above. -/
def filesB2 : List InputFile := [⟨some "guwhrje.pyc".toList, some "abc".toList⟩]

/-- Counterexample for C2 as stated: after a successful call on `filesA2`,
the fully-filtered submission `filesB2` hits the colliding cache entry
(`processWithContext` consults the result cache before filtering), so it
returns the stale artifacts instead of failing with the
`'No valid files to process after filtering'` error. -/
theorem cache_collision_skips_validation :
    filterFiles filesB2 = [] ∧
      (processWithContext genX genCallsX [] filesA2 []).result =
        Except.ok [⟨"overview.md".toList, "overview body".toList, "documentation".toList⟩] ∧
      (processWithContext genX genCallsX
          (processWithContext genX genCallsX [] filesA2 []).cache filesB2 []).result =
        Except.ok [⟨"overview.md".toList, "overview body".toList, "documentation".toList⟩] :=
  ⟨by decide, rfl, rfl⟩

theorem fileOk_content_falsy (f : InputFile) (h : truthyStr f.content = false) :
    fileOk f = false := by
  simp [fileOk, h]

theorem filterFiles_all_falsy (files : List InputFile)
    (h : ∀ f ∈ files, truthyStr f.content = false) : filterFiles files = [] := by
  induction files with
  | nil => rfl
  | cons f t ih =>
    have hf := fileOk_content_falsy f (h f (List.mem_cons_self f t))
    have ht := ih fun g hg => h g (List.mem_cons_of_mem f hg)
    simp only [filterFiles, List.filter_cons, hf]
    simpa [filterFiles] using ht

/-- Claim C9 (amended): the filter removes every file with falsy (missing or
empty) content; hence, when the result cache holds no entry under the
submission's cache key, a nonempty submission consisting only of
empty-content files fails with the `'No valid files to process after
filtering'` error. -/
theorem empty_content_files_filtered :
    (∀ f : InputFile, truthyStr f.content = false → fileOk f = false) ∧
      (∀ (gen : List InputFile → List Str → List (Str × Str))
        (genCalls : List InputFile → List Str → Nat) (cache : ResultCache)
        (files : List InputFile) (ctx : List Str),
        cache.lookup (generateCacheKey files ctx) = none →
        (∀ f ∈ files, truthyStr f.content = false) →
        processWithContext gen genCalls cache files ctx =
          ⟨.error "No valid files to process after filtering".toList, cache, 0⟩) :=
  ⟨fileOk_content_falsy, fun gen genCalls cache files ctx hmiss hall =>
    pwc_filtered_empty gen genCalls cache files ctx hmiss (filterFiles_all_falsy files hall)⟩

/-- Witness for the amended C9 at concrete inputs. -/
theorem empty_content_files_filtered_witness :
    fileOk ⟨some "a.js".toList, some []⟩ = false ∧
      processWithContext (fun _ _ => []) (fun _ _ => 0) []
          [⟨some "a.js".toList, some []⟩, ⟨some "b.md".toList, none⟩] [] =
        ⟨.error "No valid files to process after filtering".toList, [], 0⟩ :=
  ⟨empty_content_files_filtered.1 ⟨some "a.js".toList, some []⟩ rfl,
    empty_content_files_filtered.2 _ _ [] [⟨some "a.js".toList, some []⟩,
      ⟨some "b.md".toList, none⟩] [] rfl (by decide)⟩

/-- A valid one-file submission whose fingerprint string `lib/iuzeuno.ts:3`
has the same `|_quickHash|` value (1491032465) as the empty-content
submission below. -/
def filesA9 : List InputFile := [⟨some "lib/iuzeuno.ts".toList, some "hey".toList⟩]

/-- A nonempty submission consisting only of an empty-content file; its
fingerprint string `yhmnjfj.js:0` collides with the one above. -/
def filesB9 : List InputFile := [⟨some "yhmnjfj.js".toList, some []⟩]

/-- Counterexample for C9 as stated: after a successful call on `filesA9`,
the submission `filesB9` — a nonempty array all of whose files have empty
content — hits the colliding cache entry and returns the stale artifacts
instead of failing with the `'No valid files to process after filtering'`
error. -/
theorem empty_content_collision_returns_stale :
    (∀ f ∈ filesB9, truthyStr f.content = false) ∧
      (processWithContext genX genCallsX [] filesA9 []).result =
        Except.ok [⟨"overview.md".toList, "overview body".toList, "documentation".toList⟩] ∧
      (processWithContext genX genCallsX
          (processWithContext genX genCallsX [] filesA9 []).cache filesB9 []).result =
        Except.ok [⟨"overview.md".toList, "overview body".toList, "documentation".toList⟩] :=
  ⟨by decide, rfl, rfl⟩
